import Mathlib

/-! # jx-pipelines-visualizer: link derivation and route table

A shallow embedding of `web/handlers/functions/links.go` and of the route table
built by `Router.Handler` in `web/handlers/router.go`, with the properties of the
specification stated and proved over it.

Conventions of the embedding:

* a Go `string` is a Lean `String`; the `strings` helpers are defined on the
  character list `String.data`;
* a Go pointer `*T` is an `Option T`, `none` being the nil pointer;
* a function that can panic returns `Option String`, `none` being the run-time
  panic raised by a nil-pointer dereference;
* a Go `map[string]string` is `Option (List (String × String))`, `none` being the
  nil map; indexing a nil map or a missing key yields the zero value `""`.
-/

namespace JxVisualizer

/-! ## Go library helpers used by `links.go` -/

namespace strings

/-- Go `strings.HasPrefix(s, prefix)`: `s` begins with `prefix`. -/
def HasPrefix (s pre : String) : Bool :=
  pre.data.isPrefixOf s.data

/-- Go `strings.TrimPrefix(s, prefix)`: `s` without the leading `prefix`, or `s`
itself when it does not begin with `prefix`. -/
def TrimPrefix (s pre : String) : String :=
  if HasPrefix s pre then ⟨s.data.drop pre.data.length⟩ else s

/-- Go `strings.Contains(s, substr)`: `substr` occurs somewhere within `s`. -/
def Contains (s substr : String) : Bool :=
  s.data.tails.any (fun t => substr.data.isPrefixOf t)

end strings

/-- Go map indexing `m[key]` on a `map[string]string`: the zero value `""` for a nil
map and for a key that is not present. -/
def mapIndex (m : Option (List (String × String))) (key : String) : String :=
  match m with
  | none => ""
  | some kvs => (kvs.lookup key).getD ""

/-! ## Data model -/

/-- The fields of `visualizer.Pipeline` read by `links.go`. The type is declared
outside the embedded files; `PullRequestNumber` stands for the value returned by its
method `PullRequestNumber()` on this pipeline, the method being taken as given. -/
structure Pipeline where
  Provider : String
  Owner : String
  Repository : String
  Branch : String
  Author : String
  PullRequestNumber : String
deriving DecidableEq, Repr

/-- The type `visualizer.RunningPipeline`: it carries a `Pipeline`, the only part
read by `links.go`. -/
structure RunningPipeline where
  Pipeline : Pipeline
deriving DecidableEq, Repr

/-- The fields of `jenkinsv1.PipelineActivitySpec` read by `links.go`. -/
structure PipelineActivitySpec where
  GitURL : String
  GitOwner : String
  GitRepository : String
  GitBranch : String
  Author : String
  LastCommitSHA : String
  LastCommitURL : String
deriving DecidableEq, Repr

/-- The fields of `jenkinsv1.PipelineActivity` read by `links.go`: the `Labels` of
its object metadata and its `Spec`. -/
structure PipelineActivity where
  Labels : Option (List (String × String))
  Spec : PipelineActivitySpec
deriving DecidableEq, Repr

/-- The dynamic value held by the `interface{}` argument of the exported functions,
classified the way their type switches classify it. -/
inductive Value where
  /-- a `visualizer.Pipeline` -/
  | pipeline (p : Pipeline)
  /-- a `visualizer.RunningPipeline` -/
  | running (p : RunningPipeline)
  /-- a `*jenkinsv1.PipelineActivity`, `none` being the nil pointer of that type -/
  | activity (pa : Option PipelineActivity)
  /-- the untyped `nil` interface value -/
  | untypedNil
  /-- a value of any other dynamic type, named by `typeName` -/
  | other (typeName : String)
deriving DecidableEq, Repr

/-! ## `links.go` -/

/-- Go `pipelineActivityProvider`. Reading `pa.Labels` dereferences `pa`. -/
def pipelineActivityProvider (pa : Option PipelineActivity) : Option String :=
  match pa with
  | none => none
  | some a =>
    let provider := mapIndex a.Labels "provider"
    if provider ≠ "" then some provider
    else if strings.Contains a.Spec.GitURL "github" then some "github"
    else some ""

/-- Go `authorURLForPipeline`. -/
def authorURLForPipeline (pipeline : Pipeline) : String :=
  if pipeline.Provider = "github" then "https://github.com/" ++ pipeline.Author
  else ""

/-- Go `authorURLForPipelineActivity`. -/
def authorURLForPipelineActivity (pa : Option PipelineActivity) : Option String :=
  match pipelineActivityProvider pa, pa with
  | some provider, some a =>
    if provider = "github" then some ("https://github.com/" ++ a.Spec.Author)
    else some ""
  | _, _ => none

/-- Go `repositoryURLForPipeline`. -/
def repositoryURLForPipeline (pipeline : Pipeline) : String :=
  if pipeline.Provider = "github" then
    "https://github.com/" ++ pipeline.Owner ++ "/" ++ pipeline.Repository
  else ""

/-- Go `repositoryURLForPipelineActivity`. -/
def repositoryURLForPipelineActivity (pa : Option PipelineActivity) : Option String :=
  match pipelineActivityProvider pa, pa with
  | some provider, some a =>
    if provider = "github" then
      some ("https://github.com/" ++ a.Spec.GitOwner ++ "/" ++ a.Spec.GitRepository)
    else some ""
  | _, _ => none

/-- Go `branchURLForPipeline`. -/
def branchURLForPipeline (pipeline : Pipeline) : String :=
  if pipeline.Provider = "github" then
    if pipeline.PullRequestNumber ≠ "" then
      "https://github.com/" ++ pipeline.Owner ++ "/" ++ pipeline.Repository
        ++ "/pull/" ++ pipeline.PullRequestNumber
    else
      "https://github.com/" ++ pipeline.Owner ++ "/" ++ pipeline.Repository
        ++ "/tree/" ++ pipeline.Branch
  else ""

/-- Go `branchURLForPipelineActivity`. -/
def branchURLForPipelineActivity (pa : Option PipelineActivity) : Option String :=
  match pipelineActivityProvider pa, pa with
  | some provider, some a =>
    if provider = "github" then
      if strings.HasPrefix a.Spec.GitBranch "PR-" then
        some ("https://github.com/" ++ a.Spec.GitOwner ++ "/" ++ a.Spec.GitRepository
          ++ "/pull/" ++ strings.TrimPrefix a.Spec.GitBranch "PR-")
      else
        some ("https://github.com/" ++ a.Spec.GitOwner ++ "/" ++ a.Spec.GitRepository
          ++ "/tree/" ++ a.Spec.GitBranch)
    else some ""
  | _, _ => none

/-- Go `commitURLForPipelineActivity`. Reading `pa.Spec` dereferences `pa`. -/
def commitURLForPipelineActivity (pa : Option PipelineActivity) : Option String :=
  match pa with
  | none => none
  | some a =>
    if a.Spec.LastCommitURL.length > 0 then some a.Spec.LastCommitURL
    else
      match pipelineActivityProvider pa with
      | none => none
      | some provider =>
        if provider = "github" then
          some ("https://github.com/" ++ a.Spec.GitOwner ++ "/" ++ a.Spec.GitRepository
            ++ "/commit/" ++ a.Spec.LastCommitSHA)
        else some ""

/-- Go `RepositoryURL`. -/
def RepositoryURL (pipeline : Value) : Option String :=
  match pipeline with
  | .pipeline p => some (repositoryURLForPipeline p)
  | .running p => some (repositoryURLForPipeline p.Pipeline)
  | .activity p => repositoryURLForPipelineActivity p
  | _ => some ""

/-- Go `BranchURL`. -/
def BranchURL (pipeline : Value) : Option String :=
  match pipeline with
  | .pipeline p => some (branchURLForPipeline p)
  | .running p => some (branchURLForPipeline p.Pipeline)
  | .activity p => branchURLForPipelineActivity p
  | _ => some ""

/-- Go `CommitURL`. -/
def CommitURL (pipeline : Value) : Option String :=
  match pipeline with
  | .activity p => commitURLForPipelineActivity p
  | _ => some ""

/-- Go `AuthorURL`. -/
def AuthorURL (pipeline : Value) : Option String :=
  match pipeline with
  | .pipeline p => some (authorURLForPipeline p)
  | .running p => some (authorURLForPipeline p.Pipeline)
  | .activity p => authorURLForPipelineActivity p
  | _ => some ""

/-- The provider a value resolves to: the `Provider` field of a `Pipeline` and of
the `Pipeline` wrapped by a `RunningPipeline`, the result of
`pipelineActivityProvider` for an activity; undefined for the other values and for
the nil activity pointer. -/
def resolvedProvider (v : Value) : Option String :=
  match v with
  | .pipeline p => some p.Provider
  | .running p => some p.Pipeline.Provider
  | .activity pa => pipelineActivityProvider pa
  | _ => none

/-- Go `traceIDToTraceURL` needs the `text/template` library: a parsed
`*template.Template` is represented by what its method `Execute` does with the data
map it is given, namely the text it writes to the writer (possibly partial when it
fails) and the text of the error it returns, if any. -/
structure Template where
  Execute : List (String × String) → String × Option String

/-- Go `traceIDToTraceURL`. The template pointer may be nil. -/
def traceIDToTraceURL (traceID : String) (pipelineTraceURLTemplate : Option Template) :
    String :=
  match pipelineTraceURLTemplate with
  | none => ""
  | some t =>
    if traceID = "" then ""
    else
      match t.Execute [("TraceID", traceID)] with
      | (_, some err) => err
      | (sb, none) => sb

/-- Go `TraceURLFunc`. -/
def TraceURLFunc (pipelineTraceURLTemplate : Option Template) : String → String :=
  fun traceID => traceIDToTraceURL traceID pipelineTraceURLTemplate

/-! ## Route matching of `gorilla/mux`, as used by `router.go`

The router is created with `mux.NewRouter()` and `StrictSlash(true)`; every route is
registered with `router.Handle(template, handler)` and so carries a path matcher only.
A path template is compiled to an anchored regular expression: literal text is
matched verbatim, `{name}` is `[^/]+`, `{name:pattern}` is `pattern`, and with strict
slash the expression ends in `[/]?$`. A request whose path is not in clean form is
redirected to the clean form; otherwise the routes are tried in registration order
and the first one whose expression matches the request path is selected. -/

namespace mux

/-- The variable patterns occurring in the route table. -/
inductive CharClass where
  /-- the default pattern `[^/]+` -/
  | notSlash
  /-- the pattern `[0-9]+` -/
  | digit
deriving DecidableEq, Repr

/-- Membership of a character in a class. -/
def CharClass.test : CharClass → Char → Bool
  | .notSlash, c => c != '/'
  | .digit, c => '0' ≤ c && c ≤ '9'

/-- One piece of a compiled template. -/
inductive Piece where
  /-- literal text, matched verbatim -/
  | lit (raw : List Char)
  /-- a variable: one or more characters of the class -/
  | plus (cls : CharClass)
deriving DecidableEq, Repr

/-- The pattern of a variable `name` or `name:pattern` (the text between braces):
`[^/]+` without a pattern; of explicit patterns only `[0-9]+` and `[^/]+` are
supported. -/
def varPattern (v : List Char) : Option CharClass :=
  match v.dropWhile (fun c => c != ':') with
  | [] => some .notSlash
  | _ :: patt =>
    if patt = "[0-9]+".data then some .digit
    else if patt = "[^/]+".data then some .notSlash
    else none

/-- Splitting of a template at its top-level braces (`braceIndices` followed by the
loop of `newRouteRegexp`): `level` is the brace depth and `acc` the text of the piece
being read, in reverse. Unbalanced braces and unsupported patterns give `none`. -/
def splitTemplate : List Char → Nat → List Char → Option (List Piece)
  | [], level, acc => if level = 0 then some [.lit acc.reverse] else none
  | c :: cs, level, acc =>
    if c = '{' then
      if level = 0 then (splitTemplate cs 1 []).map (fun ps => .lit acc.reverse :: ps)
      else splitTemplate cs (level + 1) (c :: acc)
    else if c = '}' then
      if level = 0 then none
      else if level = 1 then
        match varPattern acc.reverse, splitTemplate cs 0 [] with
        | some cls, some ps => some (.plus cls :: ps)
        | _, _ => none
      else splitTemplate cs (level - 1) (c :: acc)
    else splitTemplate cs level (c :: acc)

/-- Compilation of a path template under strict slash: a trailing `/` of the
template is stripped first. -/
def compile (tpl : String) : Option (List Piece) :=
  let cs := if tpl.data.getLast? = some '/' then tpl.data.dropLast else tpl.data
  splitTemplate cs 0 []

/-- Matching of `(class)+` followed by the continuation `k`. -/
def matchPlus (p : Char → Bool) (k : List Char → Bool) : List Char → Bool
  | [] => false
  | c :: cs => p c && (k cs || matchPlus p k cs)

/-- Anchored matching of the compiled pieces followed by `[/]?$`. -/
def matchPieces : List Piece → List Char → Bool
  | [], cs => cs == [] || cs == ['/']
  | .lit raw :: ps, cs => raw.isPrefixOf cs && matchPieces ps (cs.drop raw.length)
  | .plus cls :: ps, cs => matchPlus cls.test (matchPieces ps) cs

/-- Whether the path matcher of a route with template `tpl` matches `path`. -/
def pathMatches (tpl path : String) : Bool :=
  match compile tpl with
  | none => false
  | some ps => matchPieces ps path.data

/-- The path name elements of a path: the texts between its slashes. -/
def splitSlash : List Char → List (List Char)
  | [] => [[]]
  | c :: cs =>
    if c = '/' then [] :: splitSlash cs
    else
      match splitSlash cs with
      | [] => [[c]]
      | s :: ss => (c :: s) :: ss

/-- The elements kept by Go `path.Clean` on a rooted path, `acc` holding those kept
so far, last first: empty elements (repeated slashes) and `.` are dropped, and `..`
drops the element before it, or nothing at the root. -/
def cleanElements : List (List Char) → List (List Char) → List (List Char)
  | [], acc => acc.reverse
  | e :: es, acc =>
    if e = [] ∨ e = ['.'] then cleanElements es acc
    else if e = ['.', '.'] then cleanElements es acc.tail
    else cleanElements es (e :: acc)

/-- Go `path.Clean` on a rooted path: the kept elements, each behind a slash, and
`/` when none is kept. -/
def pathClean (p : List Char) : List Char :=
  match cleanElements (splitSlash p) [] with
  | [] => ['/']
  | es => es.flatMap (fun e => '/' :: e)

/-- The `cleanPath` of `gorilla/mux`: the empty path is `/`, a path is made rooted,
cleaned with `path.Clean`, and given back the trailing slash it had unless the result
is the root. -/
def cleanPath (p : List Char) : List Char :=
  if p = [] then ['/']
  else
    let q := if p.head? = some '/' then p else '/' :: p
    let np := pathClean q
    if q.getLast? = some '/' ∧ np ≠ ['/'] then np ++ ['/'] else np

end mux

/-! ## `router.go` -/

/-- The handlers registered by `Router.Handler`; the two `PipelineHandler` values
differ in their `RenderYAML` field. -/
inductive Handler where
  | HomeHandler
  | healthzHandler
  | RunningHandler
  | RunningEventsHandler
  | OwnerHandler
  | RepositoryHandler
  | BranchHandler
  | ShieldsIOHandler
  | PipelineHandler (RenderYAML : Bool)
  | LogsHandler
  | LiveLogsHandler
  | PipelineRunHandler
  | jxuiCompatibilityHandler
deriving DecidableEq, Repr

/-- The routes of `Router.Handler`, in registration order. -/
def routes : List (String × Handler) :=
  [ ("/", .HomeHandler),
    ("/healthz", .healthzHandler),
    ("/running", .RunningHandler),
    ("/running/events", .RunningEventsHandler),
    ("/{owner}", .OwnerHandler),
    ("/{owner}/{repo}", .RepositoryHandler),
    ("/{owner}/{repo}/{branch}", .BranchHandler),
    ("/{owner}/{repo}/{branch}/shields.io", .ShieldsIOHandler),
    ("/{owner}/{repo}/{branch}/{build:[0-9]+}", .PipelineHandler false),
    ("/{owner}/{repo}/{branch}/{build:[0-9]+}.yaml", .PipelineHandler true),
    ("/{owner}/{repo}/{branch}/{build:[0-9]+}/logs", .LogsHandler),
    ("/{owner}/{repo}/{branch}/{build:[0-9]+}/logs/live", .LiveLogsHandler),
    ("/namespaces/{namespace}/pipelineruns/{pipelineRun}", .PipelineRunHandler),
    ("/teams/{team}/projects/{owner}/{repo}/{branch}/{build:[0-9]+}",
      .jxuiCompatibilityHandler) ]

/-- What the router does with a request path. -/
inductive Dispatch where
  /-- the request is passed to the handler of the selected route -/
  | serve (h : Handler)
  /-- the request is answered with a permanent redirect to the path `location` and
  reaches no handler: the path is not in its clean form, or, under strict slash, the
  selected route differs from the path in its trailing slash -/
  | redirect (location : String)
  /-- no route matches -/
  | notFound
deriving DecidableEq, Repr

/-- The router's `ServeHTTP` over a route table. `SkipClean` is not set, so a path
that differs from its clean form is redirected to that form before any route is
tried. Otherwise the first route whose path matcher matches is selected; under strict
slash a path and a template that differ in their trailing slash give a redirect, to
the path with the slash removed or added, in place of the handler. -/
def dispatchIn (rs : List (String × Handler)) (path : String) : Dispatch :=
  if mux.cleanPath path.data ≠ path.data then .redirect ⟨mux.cleanPath path.data⟩
  else
    match rs.find? (fun r => mux.pathMatches r.1 path) with
    | none => .notFound
    | some r =>
      if (path.data.getLast? = some '/') = (r.1.data.getLast? = some '/') then .serve r.2
      else if path.data.getLast? = some '/' then .redirect ⟨path.data.dropLast⟩
      else .redirect ⟨path.data ++ ['/']⟩

/-- Dispatch over the routes of `Router.Handler`. -/
def dispatch (path : String) : Dispatch :=
  dispatchIn routes path

/-- The template pointer `Router.Handler` hands to `TraceURLFunc`: nil unless the
configured `PipelineTraceURLTemplate` is non-empty, in which case it is the parsed
template, a parse error making `Handler` return the error. `parse` stands for
`template.New("pipelineTraceURL").Funcs(sprig.TxtFuncMap()).Parse`. -/
def routerTraceTemplate (parse : String → Except String Template)
    (PipelineTraceURLTemplate : String) : Except String (Option Template) :=
  if PipelineTraceURLTemplate.length > 0 then
    match parse PipelineTraceURLTemplate with
    | .ok t => .ok (some t)
    | .error err => .error err
  else .ok none

/-- A path segment that a route variable can take: non-empty, free of `/`, and
neither `.` nor `..`, the two elements that path cleaning removes from a path. -/
def isSegment (s : String) : Bool :=
  !s.data.isEmpty && s.data.all (fun c => c != '/') && s != "." && s != ".."

/-- A build number as it occurs in a path: non-empty and made of decimal digits. -/
def isDigits (s : String) : Bool :=
  !s.data.isEmpty && s.data.all (fun c => '0' ≤ c && c ≤ '9')

/-- The number of `/` in the literal text of compiled pieces. -/
def mux.slashes : List mux.Piece → Nat
  | [] => 0
  | .lit raw :: ps => raw.count '/' + mux.slashes ps
  | .plus _ :: ps => mux.slashes ps

/-! ## Running pipeline registry -/

/-- Modelled from the spec: the identity of a pipeline run
`{provider, owner, repository, branch, buildNumber}`, an immutable value compared
structurally. Its declaration is outside the embedded files. -/
structure PipelineIdentity where
  provider : String
  owner : String
  repository : String
  branch : String
  buildNumber : Nat
deriving DecidableEq, Repr

/-- Modelled from the spec: the events the registry triggers on the "running"
topic. -/
inductive RegistryEvent where
  | pipelineUpdated (snap : RunningPipeline)
  | pipelineRemoved (id : PipelineIdentity)
deriving DecidableEq, Repr

/-- Modelled from the spec: the registry `visualizer.RunningPipelines`, to which
`Router` only holds a pointer and whose declaration and methods are outside the
embedded files. It is the mapping from `PipelineIdentity` to `RunningPipeline`, kept
as the list of its entries, oldest first. -/
structure RunningPipelines where
  entries : List (PipelineIdentity × RunningPipeline)
deriving DecidableEq, Repr

/-- Modelled from the spec: `Upsert(identity, snapshot)` inserts or replaces the
entry, always succeeds, and triggers a "pipeline-updated" event carrying the new
snapshot. A replaced entry keeps its place, a new one goes last. -/
def RunningPipelines.Upsert (r : RunningPipelines) (id : PipelineIdentity)
    (snap : RunningPipeline) : RunningPipelines × RegistryEvent :=
  if r.entries.any (fun e => e.1 = id) then
    ({ entries := r.entries.map (fun e => if e.1 = id then (id, snap) else e) },
      .pipelineUpdated snap)
  else ({ entries := r.entries ++ [(id, snap)] }, .pipelineUpdated snap)

/-- Modelled from the spec: `Remove(identity)` deletes the entry and triggers a
"pipeline-removed" event; removing an absent identity is a no-op. -/
def RunningPipelines.Remove (r : RunningPipelines) (id : PipelineIdentity) :
    RunningPipelines × Option RegistryEvent :=
  if r.entries.any (fun e => e.1 = id) then
    ({ entries := r.entries.filter (fun e => e.1 ≠ id) }, some (.pipelineRemoved id))
  else (r, none)

/-- Modelled from the spec: `Snapshot()` returns an independent copy of all current
entries at a single point in time. -/
def RunningPipelines.Snapshot (r : RunningPipelines) :
    List (PipelineIdentity × RunningPipeline) :=
  r.entries

/-! ## Concrete inputs used below -/

/-- An activity of a GitLab repository that stores its commit URL. -/
def gitlabActivity : PipelineActivity :=
  { Labels := some [("provider", "gitlab")]
    Spec := { GitURL := "https://gitlab.com/acme/widgets.git", GitOwner := "acme",
              GitRepository := "widgets", GitBranch := "main", Author := "bob",
              LastCommitSHA := "abc123",
              LastCommitURL := "https://gitlab.com/acme/widgets/-/commit/abc123" } }

/-- An activity of a GitHub repository, without labels and without a stored commit
URL, built for pull request 12. -/
def githubActivity : PipelineActivity :=
  { Labels := none
    Spec := { GitURL := "https://github.com/acme/widgets.git", GitOwner := "acme",
              GitRepository := "widgets", GitBranch := "PR-12", Author := "bob",
              LastCommitSHA := "abc123", LastCommitURL := "" } }

/-- A GitHub pipeline of the branch `main`. -/
def githubPipeline : Pipeline :=
  { Provider := "github", Owner := "acme", Repository := "widgets", Branch := "main",
    Author := "bob", PullRequestNumber := "" }

/-- A running pipeline built for pull request 7. -/
def pullRequestPipeline : Pipeline :=
  { Provider := "github", Owner := "acme", Repository := "widgets", Branch := "PR-7",
    Author := "alice", PullRequestNumber := "7" }

/-- The identity of build 42 of the branch `main`. -/
def mainBuild : PipelineIdentity :=
  { provider := "github", owner := "acme", repository := "widgets", branch := "main",
    buildNumber := 42 }

/-- The identity of build 3 of the branch `PR-7`. -/
def pullRequestBuild : PipelineIdentity :=
  { provider := "github", owner := "acme", repository := "widgets", branch := "PR-7",
    buildNumber := 3 }

/-- The identity of build 43 of the branch `main`, which is not running. -/
def nextMainBuild : PipelineIdentity :=
  { provider := "github", owner := "acme", repository := "widgets", branch := "main",
    buildNumber := 43 }

/-- A registry with two running pipelines, the build of `main` being the older. -/
def twoRunning : RunningPipelines :=
  { entries := [(mainBuild, { Pipeline := githubPipeline }),
                (pullRequestBuild, { Pipeline := pullRequestPipeline })] }

/-- A template that renders a trace link. -/
def linkTemplate : Template :=
  { Execute := fun data => ("https://traces.example/" ++ (data.lookup "TraceID").getD "", none) }

/-- A template whose execution fails after writing part of its output. -/
def failingTemplate : Template :=
  { Execute := fun _ => ("https://traces.example/", some "template: pipelineTraceURL: error") }

/-! ## Helper lemmas -/

theorem length_pos_iff_ne_empty (s : String) : s.length > 0 ↔ s ≠ "" := by
  rw [String.length, gt_iff_lt, List.length_pos]
  constructor
  · intro h e; apply h; rw [e]
  · intro h e; apply h; exact String.ext e

theorem hasPrefix_iff (s pre : String) :
    strings.HasPrefix s pre = true ↔ ∃ rest : String, s = pre ++ rest := by
  unfold strings.HasPrefix
  rw [List.isPrefixOf_iff_prefix]
  constructor
  · rintro ⟨t, ht⟩
    exact ⟨⟨t⟩, String.ext (by simp [String.data_append, ht])⟩
  · rintro ⟨rest, rfl⟩
    exact ⟨rest.data, by simp [String.data_append]⟩

theorem trimPrefix_append (pre rest : String) :
    strings.TrimPrefix (pre ++ rest) pre = rest := by
  have h : strings.HasPrefix (pre ++ rest) pre = true := (hasPrefix_iff _ _).2 ⟨rest, rfl⟩
  unfold strings.TrimPrefix
  rw [if_pos h]
  apply String.ext
  simp [String.data_append]

theorem contains_iff (s substr : String) :
    strings.Contains s substr = true ↔ ∃ u v : String, s = u ++ substr ++ v := by
  unfold strings.Contains
  rw [List.any_eq_true]
  constructor
  · rintro ⟨t, ht, hp⟩
    rw [List.mem_tails] at ht
    obtain ⟨u, hu⟩ := ht
    rw [List.isPrefixOf_iff_prefix] at hp
    obtain ⟨v, hv⟩ := hp
    refine ⟨⟨u⟩, ⟨v⟩, String.ext ?_⟩
    simp [String.data_append, ← hu, ← hv]
  · rintro ⟨u, v, rfl⟩
    refine ⟨substr.data ++ v.data, ?_, ?_⟩
    · rw [List.mem_tails]; exact ⟨u.data, by simp [String.data_append]⟩
    · rw [List.isPrefixOf_iff_prefix]; exact ⟨v.data, rfl⟩

theorem pull_ne_tree (base x y : String) : base ++ "/pull/" ++ x ≠ base ++ "/tree/" ++ y := by
  intro h
  have h2 := congrArg String.data h
  simp [String.data_append] at h2

theorem provider_some (a : PipelineActivity) :
    ∃ p, pipelineActivityProvider (some a) = some p := by
  unfold pipelineActivityProvider
  dsimp only
  split_ifs <;> exact ⟨_, rfl⟩

/-! ## Link derivation -/

/-- C1, as stated, fails: an activity labelled with the provider `gitlab` resolves
to a provider other than `github`, yet `CommitURL` returns its stored commit URL and
not the empty string. -/
theorem C1_counterexample :
    resolvedProvider (.activity (some gitlabActivity)) = some "gitlab" ∧
    CommitURL (.activity (some gitlabActivity))
      = some "https://gitlab.com/acme/widgets/-/commit/abc123" ∧
    CommitURL (.activity (some gitlabActivity)) ≠ some "" := by
  decide

/-- C1, amended: for every value of the three variants whose provider resolves to
something other than `github`, `RepositoryURL`, `BranchURL` and `AuthorURL` return
the empty string, and so does `CommitURL` unless the value is an activity with a
non-empty `Spec.LastCommitURL`, for which `CommitURL` returns that stored URL. -/
theorem C1_unrecognized_provider (v : Value) (p : String)
    (hp : resolvedProvider v = some p) (hne : p ≠ "github") :
    RepositoryURL v = some "" ∧ BranchURL v = some "" ∧ AuthorURL v = some "" ∧
    ((∀ a, v = .activity (some a) → a.Spec.LastCommitURL = "") → CommitURL v = some "") ∧
    (∀ a, v = .activity (some a) → a.Spec.LastCommitURL ≠ "" →
      CommitURL v = some a.Spec.LastCommitURL) := by
  cases v with
  | pipeline q =>
    simp only [resolvedProvider, Option.some.injEq] at hp
    subst hp
    simp [RepositoryURL, BranchURL, AuthorURL, CommitURL, repositoryURLForPipeline,
      branchURLForPipeline, authorURLForPipeline, hne]
  | running q =>
    simp only [resolvedProvider, Option.some.injEq] at hp
    subst hp
    simp [RepositoryURL, BranchURL, AuthorURL, CommitURL, repositoryURLForPipeline,
      branchURLForPipeline, authorURLForPipeline, hne]
  | activity pa =>
    cases pa with
    | none => simp [resolvedProvider, pipelineActivityProvider] at hp
    | some a =>
      simp only [resolvedProvider] at hp
      refine ⟨?_, ?_, ?_, ?_, ?_⟩
      · simp [RepositoryURL, repositoryURLForPipelineActivity, hp, hne]
      · simp [BranchURL, branchURLForPipelineActivity, hp, hne]
      · simp [AuthorURL, authorURLForPipelineActivity, hp, hne]
      · intro h
        have he : a.Spec.LastCommitURL = "" := h a rfl
        have hl : ¬ a.Spec.LastCommitURL.length > 0 := by
          rw [length_pos_iff_ne_empty]; exact fun hc => hc he
        simp only [CommitURL, commitURLForPipelineActivity, hp, if_neg hl, if_neg hne]
      · intro b hb hcommit
        simp only [Value.activity.injEq, Option.some.injEq] at hb
        subst hb
        have hl : a.Spec.LastCommitURL.length > 0 :=
          (length_pos_iff_ne_empty _).2 hcommit
        simp only [CommitURL, commitURLForPipelineActivity, if_pos hl]
  | untypedNil => simp [resolvedProvider] at hp
  | other t => simp [resolvedProvider] at hp

/-- Witness of `C1_unrecognized_provider` at a pipeline of the provider `gitlab`. -/
theorem C1_unrecognized_provider_witness :
    RepositoryURL (.pipeline { githubPipeline with Provider := "gitlab" }) = some "" ∧
    BranchURL (.pipeline { githubPipeline with Provider := "gitlab" }) = some "" ∧
    AuthorURL (.pipeline { githubPipeline with Provider := "gitlab" }) = some "" ∧
    CommitURL (.pipeline { githubPipeline with Provider := "gitlab" }) = some "" := by
  have h := C1_unrecognized_provider (.pipeline { githubPipeline with Provider := "gitlab" })
    "gitlab" rfl (by decide)
  exact ⟨h.1, h.2.1, h.2.2.1, h.2.2.2.1 (fun a ha => by cases ha)⟩

/-- C2, as stated, fails: on the nil `*PipelineActivity` each of the four functions
dereferences the pointer and panics instead of returning a string. -/
theorem C2_counterexample :
    RepositoryURL (.activity none) = none ∧ BranchURL (.activity none) = none ∧
    CommitURL (.activity none) = none ∧ AuthorURL (.activity none) = none := by
  decide

/-- C2, amended: on every input other than the nil `*PipelineActivity` (a
`Pipeline`, a `RunningPipeline`, a non-nil activity whatever its labels, the untyped
nil, a value of any other type) each of `RepositoryURL`, `BranchURL`, `CommitURL`
and `AuthorURL` returns a string without panicking, and a value that is none of the
three variants yields the empty string. -/
theorem C2_total_except_nil_activity (v : Value) (hv : v ≠ .activity none) :
    (∃ s, RepositoryURL v = some s) ∧ (∃ s, BranchURL v = some s) ∧
    (∃ s, CommitURL v = some s) ∧ (∃ s, AuthorURL v = some s) ∧
    ((v = .untypedNil ∨ ∃ t, v = .other t) →
      RepositoryURL v = some "" ∧ BranchURL v = some "" ∧
      CommitURL v = some "" ∧ AuthorURL v = some "") := by
  cases v with
  | pipeline q => simp [RepositoryURL, BranchURL, CommitURL, AuthorURL]
  | running q => simp [RepositoryURL, BranchURL, CommitURL, AuthorURL]
  | activity pa =>
    cases pa with
    | none => exact absurd rfl hv
    | some a =>
      obtain ⟨p, hp⟩ := provider_some a
      refine ⟨?_, ?_, ?_, ?_, ?_⟩
      · simp only [RepositoryURL, repositoryURLForPipelineActivity, hp]
        split_ifs <;> exact ⟨_, rfl⟩
      · simp only [BranchURL, branchURLForPipelineActivity, hp]
        split_ifs <;> exact ⟨_, rfl⟩
      · simp only [CommitURL, commitURLForPipelineActivity, hp]
        split_ifs <;> exact ⟨_, rfl⟩
      · simp only [AuthorURL, authorURLForPipelineActivity, hp]
        split_ifs <;> exact ⟨_, rfl⟩
      · rintro (h | ⟨t, h⟩) <;> cases h
  | untypedNil => simp [RepositoryURL, BranchURL, CommitURL, AuthorURL]
  | other t => simp [RepositoryURL, BranchURL, CommitURL, AuthorURL]

/-- Witness of `C2_total_except_nil_activity` at an activity whose `Labels` map is
nil. -/
theorem C2_total_except_nil_activity_witness :
    (∃ s, RepositoryURL (.activity (some githubActivity)) = some s) ∧
    (∃ s, BranchURL (.activity (some githubActivity)) = some s) ∧
    (∃ s, CommitURL (.activity (some githubActivity)) = some s) ∧
    (∃ s, AuthorURL (.activity (some githubActivity)) = some s) := by
  have h := C2_total_except_nil_activity (.activity (some githubActivity)) (by decide)
  exact ⟨h.1, h.2.1, h.2.2.1, h.2.2.2.1⟩

/-- C3: for a record whose provider resolves to `github`, `BranchURL` is the pull
request URL exactly when the record encodes a pull request and the branch tree URL
otherwise. For an activity whose `GitBranch` is `PR-` followed by `rest` it is
`https://github.com/<GitOwner>/<GitRepository>/pull/<rest>`, and for any other
`GitBranch` it is `https://github.com/<GitOwner>/<GitRepository>/tree/<GitBranch>`.
For a `Pipeline`, alone or wrapped by a `RunningPipeline`, it is
`https://github.com/<Owner>/<Repository>/pull/<PullRequestNumber()>` when that number
is non-empty and `https://github.com/<Owner>/<Repository>/tree/<Branch>` otherwise.
A record encoding a pull request never gets a tree URL of its repository, and a
record that encodes none never gets a pull URL of its repository. -/
theorem C3_branch_url_pull_or_tree :
    (∀ a : PipelineActivity, pipelineActivityProvider (some a) = some "github" →
      (∀ rest : String, a.Spec.GitBranch = "PR-" ++ rest →
        BranchURL (.activity (some a))
          = some ("https://github.com/" ++ a.Spec.GitOwner ++ "/" ++ a.Spec.GitRepository
              ++ "/pull/" ++ rest) ∧
        ∀ x : String, BranchURL (.activity (some a))
          ≠ some ("https://github.com/" ++ a.Spec.GitOwner ++ "/" ++ a.Spec.GitRepository
              ++ "/tree/" ++ x)) ∧
      ((¬ ∃ rest : String, a.Spec.GitBranch = "PR-" ++ rest) →
        BranchURL (.activity (some a))
          = some ("https://github.com/" ++ a.Spec.GitOwner ++ "/" ++ a.Spec.GitRepository
              ++ "/tree/" ++ a.Spec.GitBranch) ∧
        ∀ x : String, BranchURL (.activity (some a))
          ≠ some ("https://github.com/" ++ a.Spec.GitOwner ++ "/" ++ a.Spec.GitRepository
              ++ "/pull/" ++ x))) ∧
    (∀ (p : Pipeline) (v : Value), v = .pipeline p ∨ v = .running { Pipeline := p } →
      p.Provider = "github" →
      (p.PullRequestNumber ≠ "" →
        BranchURL v
          = some ("https://github.com/" ++ p.Owner ++ "/" ++ p.Repository
              ++ "/pull/" ++ p.PullRequestNumber) ∧
        ∀ x : String, BranchURL v
          ≠ some ("https://github.com/" ++ p.Owner ++ "/" ++ p.Repository ++ "/tree/" ++ x)) ∧
      (p.PullRequestNumber = "" →
        BranchURL v
          = some ("https://github.com/" ++ p.Owner ++ "/" ++ p.Repository
              ++ "/tree/" ++ p.Branch) ∧
        ∀ x : String, BranchURL v
          ≠ some ("https://github.com/" ++ p.Owner ++ "/" ++ p.Repository
              ++ "/pull/" ++ x))) := by
  refine ⟨fun a hp => ⟨fun rest hb => ?_, fun hb => ?_⟩, fun p v hv hp => ⟨fun hn => ?_, fun hn => ?_⟩⟩
  · have hpre : strings.HasPrefix a.Spec.GitBranch "PR-" = true :=
      (hasPrefix_iff _ _).2 ⟨rest, hb⟩
    have hurl : BranchURL (.activity (some a))
        = some ("https://github.com/" ++ a.Spec.GitOwner ++ "/" ++ a.Spec.GitRepository
            ++ "/pull/" ++ rest) := by
      simp only [BranchURL, branchURLForPipelineActivity, hp, if_pos, hpre]
      rw [hb, trimPrefix_append]
    refine ⟨hurl, fun x hx => ?_⟩
    rw [hurl] at hx
    exact pull_ne_tree _ _ _ (Option.some.inj hx)
  · have hpre : ¬ strings.HasPrefix a.Spec.GitBranch "PR-" = true :=
      fun h => hb ((hasPrefix_iff _ _).1 h)
    have hurl : BranchURL (.activity (some a))
        = some ("https://github.com/" ++ a.Spec.GitOwner ++ "/" ++ a.Spec.GitRepository
            ++ "/tree/" ++ a.Spec.GitBranch) := by
      simp only [BranchURL, branchURLForPipelineActivity, hp, if_pos, if_neg hpre]
    refine ⟨hurl, fun x hx => ?_⟩
    rw [hurl] at hx
    exact pull_ne_tree _ _ _ (Option.some.inj hx).symm
  · have hurl : BranchURL v
        = some ("https://github.com/" ++ p.Owner ++ "/" ++ p.Repository
            ++ "/pull/" ++ p.PullRequestNumber) := by
      rcases hv with rfl | rfl <;>
        simp only [BranchURL, branchURLForPipeline, hp, if_pos, if_pos hn]
    refine ⟨hurl, fun x hx => ?_⟩
    rw [hurl] at hx
    exact pull_ne_tree _ _ _ (Option.some.inj hx)
  · have hurl : BranchURL v
        = some ("https://github.com/" ++ p.Owner ++ "/" ++ p.Repository
            ++ "/tree/" ++ p.Branch) := by
      rcases hv with rfl | rfl <;>
        simp only [BranchURL, branchURLForPipeline, hp, if_pos, hn, ne_eq, not_true_eq_false,
          if_false]
    refine ⟨hurl, fun x hx => ?_⟩
    rw [hurl] at hx
    exact pull_ne_tree _ _ _ (Option.some.inj hx).symm

/-- Witness of `C3_branch_url_pull_or_tree` at the GitHub activity of the branch
`PR-12` and at the GitHub pipeline of the branch `main`. -/
theorem C3_branch_url_pull_or_tree_witness :
    BranchURL (.activity (some githubActivity))
      = some "https://github.com/acme/widgets/pull/12" ∧
    BranchURL (.pipeline githubPipeline) = some "https://github.com/acme/widgets/tree/main" :=
  ⟨((C3_branch_url_pull_or_tree.1 githubActivity (by decide)).1 "12" (by decide)).1,
   ((C3_branch_url_pull_or_tree.2 githubPipeline (.pipeline githubPipeline) (Or.inl rfl)
      (by decide)).2 (by decide)).1⟩

/-- C4: for every legacy activity, `CommitURL` prefers the stored commit URL: a
non-empty `Spec.LastCommitURL` is returned as it is, whatever the provider; when it
is empty and the provider resolves to `github` the result is
`https://github.com/<GitOwner>/<GitRepository>/commit/<LastCommitSHA>`. -/
theorem C4_commit_url_prefers_stored (a : PipelineActivity) :
    (a.Spec.LastCommitURL ≠ "" →
      CommitURL (.activity (some a)) = some a.Spec.LastCommitURL) ∧
    (a.Spec.LastCommitURL = "" → pipelineActivityProvider (some a) = some "github" →
      CommitURL (.activity (some a))
        = some ("https://github.com/" ++ a.Spec.GitOwner ++ "/" ++ a.Spec.GitRepository
            ++ "/commit/" ++ a.Spec.LastCommitSHA)) := by
  constructor
  · intro h
    have hl : a.Spec.LastCommitURL.length > 0 := (length_pos_iff_ne_empty _).2 h
    simp only [CommitURL, commitURLForPipelineActivity, if_pos hl]
  · intro h hp
    have hl : ¬ a.Spec.LastCommitURL.length > 0 := by
      rw [length_pos_iff_ne_empty]; exact fun hc => hc h
    simp only [CommitURL, commitURLForPipelineActivity, if_neg hl, hp, if_pos]

/-- Witness of `C4_commit_url_prefers_stored`: the stored URL of the GitLab activity
and the derived URL of the GitHub activity. -/
theorem C4_commit_url_prefers_stored_witness :
    CommitURL (.activity (some gitlabActivity))
      = some "https://gitlab.com/acme/widgets/-/commit/abc123" ∧
    CommitURL (.activity (some githubActivity))
      = some "https://github.com/acme/widgets/commit/abc123" :=
  ⟨(C4_commit_url_prefers_stored gitlabActivity).1 (by decide),
   (C4_commit_url_prefers_stored githubActivity).2 (by decide) (by decide)⟩

/-- C5: provider resolution for a legacy activity. A non-empty `provider` label is
the result, unchanged, whatever `Spec.GitURL` is; with an empty or missing label the
result is `github` if and only if `Spec.GitURL` contains the substring `github`, and
the empty string otherwise. -/
theorem C5_provider_resolution (a : PipelineActivity) :
    (mapIndex a.Labels "provider" ≠ "" →
      pipelineActivityProvider (some a) = some (mapIndex a.Labels "provider")) ∧
    (mapIndex a.Labels "provider" = "" →
      (pipelineActivityProvider (some a) = some "github" ↔
        ∃ u v : String, a.Spec.GitURL = u ++ "github" ++ v) ∧
      ((¬ ∃ u v : String, a.Spec.GitURL = u ++ "github" ++ v) →
        pipelineActivityProvider (some a) = some "")) := by
  refine ⟨fun h => ?_, fun h => ⟨?_, fun hc => ?_⟩⟩
  · simp only [pipelineActivityProvider, if_pos h]
  · rw [← contains_iff]
    simp only [pipelineActivityProvider, h, ne_eq, not_true_eq_false, if_false]
    split_ifs with hc
    · simp [hc]
    · simp [hc]
  · rw [← contains_iff] at hc
    simp only [pipelineActivityProvider, h, ne_eq, not_true_eq_false, if_false, if_neg hc]

/-- Witness of `C5_provider_resolution`: the label of the GitLab activity wins, and
the GitHub activity, which has no labels, is resolved from its `GitURL`. -/
theorem C5_provider_resolution_witness :
    pipelineActivityProvider (some gitlabActivity) = some "gitlab" ∧
    pipelineActivityProvider (some githubActivity) = some "github" :=
  ⟨(C5_provider_resolution gitlabActivity).1 (by decide),
   ((C5_provider_resolution githubActivity).2 (by decide)).1.2
     ⟨"https://", ".com/acme/widgets.git", by decide⟩⟩

/-- C9: `CommitURL` returns the empty string for every `Pipeline` and every
`RunningPipeline`, whatever its fields; a non-empty commit URL can only come from a
non-nil `*PipelineActivity`, and some activity does yield one. -/
theorem C9_commit_url_only_for_activity :
    (∀ p : Pipeline, CommitURL (.pipeline p) = some "") ∧
    (∀ r : RunningPipeline, CommitURL (.running r) = some "") ∧
    (∀ (v : Value) (s : String), CommitURL v = some s → s ≠ "" →
      ∃ a, v = .activity (some a)) ∧
    (∃ (a : PipelineActivity) (s : String),
      CommitURL (.activity (some a)) = some s ∧ s ≠ "") := by
  refine ⟨fun p => rfl, fun r => rfl, fun v s hs hne => ?_, ⟨githubActivity, _, rfl, by decide⟩⟩
  cases v with
  | activity pa =>
    cases pa with
    | none => simp [CommitURL, commitURLForPipelineActivity] at hs
    | some a => exact ⟨a, rfl⟩
  | pipeline q => simp only [CommitURL, Option.some.injEq] at hs; exact absurd hs.symm hne
  | running q => simp only [CommitURL, Option.some.injEq] at hs; exact absurd hs.symm hne
  | untypedNil => simp only [CommitURL, Option.some.injEq] at hs; exact absurd hs.symm hne
  | other t => simp only [CommitURL, Option.some.injEq] at hs; exact absurd hs.symm hne

/-- Witness of `C9_commit_url_only_for_activity` at the GitHub pipeline and at the
GitHub activity. -/
theorem C9_commit_url_only_for_activity_witness :
    CommitURL (.pipeline githubPipeline) = some "" ∧
    ∃ a, Value.activity (some githubActivity) = .activity (some a) :=
  ⟨C9_commit_url_only_for_activity.1 githubPipeline,
   C9_commit_url_only_for_activity.2.2.1 (.activity (some githubActivity))
     "https://github.com/acme/widgets/commit/abc123" (by decide) (by decide)⟩

/-! ## Trace URL -/

/-- C6: trace URL derivation. The router passes the nil template for an empty
template string; with the nil template the result is the empty string for every
trace ID; with any template the result is the empty string for the empty trace ID;
otherwise the template is executed on the data `TraceID ↦ traceID`, and the result
is the rendered output when the execution succeeds and exactly the text of the error,
without the output written so far, when it fails. -/
theorem C6_trace_url :
    (∀ parse : String → Except String Template,
      routerTraceTemplate parse "" = .ok none) ∧
    (∀ traceID : String, TraceURLFunc none traceID = "") ∧
    (∀ tmpl : Option Template, TraceURLFunc tmpl "" = "") ∧
    (∀ (t : Template) (traceID out : String), traceID ≠ "" →
      t.Execute [("TraceID", traceID)] = (out, none) →
      TraceURLFunc (some t) traceID = out) ∧
    (∀ (t : Template) (traceID partialOut err : String), traceID ≠ "" →
      t.Execute [("TraceID", traceID)] = (partialOut, some err) →
      TraceURLFunc (some t) traceID = err) := by
  refine ⟨fun parse => rfl, fun traceID => rfl, fun tmpl => ?_, ?_, ?_⟩
  · cases tmpl <;> simp [TraceURLFunc, traceIDToTraceURL]
  · intro t traceID out hne hex
    simp only [TraceURLFunc, traceIDToTraceURL, if_neg hne, hex]
  · intro t traceID partialOut err hne hex
    simp only [TraceURLFunc, traceIDToTraceURL, if_neg hne, hex]

/-- Witness of `C6_trace_url`: a rendered link, and the error text of a template
that fails after writing part of its output. -/
theorem C6_trace_url_witness :
    TraceURLFunc (some linkTemplate) "4bf92f35" = "https://traces.example/4bf92f35" ∧
    TraceURLFunc (some failingTemplate) "4bf92f35" = "template: pipelineTraceURL: error" :=
  ⟨C6_trace_url.2.2.2.1 linkTemplate "4bf92f35" "https://traces.example/4bf92f35"
      (by decide) rfl,
   C6_trace_url.2.2.2.2 failingTemplate "4bf92f35" "https://traces.example/"
      "template: pipelineTraceURL: error" (by decide) rfl⟩

/-! ## Route matching -/

theorem test_ne_slash (cls : mux.CharClass) (c : Char) (h : cls.test c = true) : c ≠ '/' := by
  intro hc
  subst hc
  cases cls <;> revert h <;> decide

theorem matchPlus_split (p : Char → Bool) (k : List Char → Bool) (cs : List Char)
    (h : mux.matchPlus p k cs = true) :
    ∃ s1 s2, cs = s1 ++ s2 ∧ (∀ c ∈ s1, p c = true) ∧ k s2 = true := by
  induction cs with
  | nil => simp [mux.matchPlus] at h
  | cons c cs ih =>
    simp only [mux.matchPlus, Bool.and_eq_true, Bool.or_eq_true] at h
    obtain ⟨hc, hk | hrec⟩ := h
    · exact ⟨[c], cs, rfl, by simpa using hc, hk⟩
    · obtain ⟨s1, s2, rfl, hs1, hk⟩ := ih hrec
      refine ⟨c :: s1, s2, rfl, ?_, hk⟩
      intro d hd
      rcases List.mem_cons.1 hd with rfl | hd
      · exact hc
      · exact hs1 d hd

theorem matchPlus_append (p : Char → Bool) (k : List Char → Bool) (s1 s2 : List Char)
    (hne : s1 ≠ []) (hs1 : ∀ c ∈ s1, p c = true) (hk : k s2 = true) :
    mux.matchPlus p k (s1 ++ s2) = true := by
  induction s1 with
  | nil => exact absurd rfl hne
  | cons c s1 ih =>
    have hc : p c = true := hs1 c (List.mem_cons_self _ _)
    cases s1 with
    | nil => simp [mux.matchPlus, hc, hk]
    | cons d s1 =>
      have hrec := ih (by simp) (fun e he => hs1 e (List.mem_cons_of_mem _ he))
      show (p c && (k (d :: s1 ++ s2) || mux.matchPlus p k (d :: s1 ++ s2))) = true
      rw [hc, hrec, Bool.or_true, Bool.and_true]

theorem matchPieces_count (ps : List mux.Piece) :
    ∀ cs : List Char, mux.matchPieces ps cs = true →
      cs.count '/' = mux.slashes ps ∨
      (cs.count '/' = mux.slashes ps + 1 ∧ cs.getLast? = some '/') := by
  induction ps with
  | nil =>
    intro cs h
    simp only [mux.matchPieces, Bool.or_eq_true, beq_iff_eq] at h
    rcases h with rfl | rfl
    · left; rfl
    · right; exact ⟨by decide, rfl⟩
  | cons piece ps ih =>
    intro cs h
    cases piece with
    | lit raw =>
      simp only [mux.matchPieces, Bool.and_eq_true] at h
      obtain ⟨hpre, hrest⟩ := h
      rw [List.isPrefixOf_iff_prefix] at hpre
      obtain ⟨t, rfl⟩ := hpre
      rw [List.drop_left] at hrest
      simp only [mux.slashes, List.count_append]
      rcases ih t hrest with h1 | ⟨h1, h2⟩
      · left; omega
      · right
        refine ⟨by omega, ?_⟩
        have ht : t ≠ [] := by
          intro e; rw [e] at h2; simp at h2
        rw [List.getLast?_append_of_ne_nil _ ht]; exact h2
    | plus cls =>
      simp only [mux.matchPieces] at h
      obtain ⟨s1, s2, rfl, hs1, hk⟩ := matchPlus_split _ _ _ h
      have hz : s1.count '/' = 0 := by
        rw [List.count_eq_zero]
        intro hmem
        exact test_ne_slash cls _ (hs1 _ hmem) rfl
      simp only [mux.slashes, List.count_append, hz, Nat.zero_add]
      rcases ih s2 hk with h1 | ⟨h1, h2⟩
      · left; exact h1
      · right
        refine ⟨h1, ?_⟩
        have ht : s2 ≠ [] := by
          intro e; rw [e] at h2; simp at h2
        rw [List.getLast?_append_of_ne_nil _ ht]; exact h2

theorem not_pathMatches_of_count (tpl path : String) (n : Nat)
    (hn : path.data.count '/' = n) (hlast : path.data.getLast? ≠ some '/')
    (hne : (mux.compile tpl).map mux.slashes ≠ some n) :
    mux.pathMatches tpl path = false := by
  rw [Bool.eq_false_iff]
  intro h
  unfold mux.pathMatches at h
  cases hc : mux.compile tpl with
  | none => rw [hc] at h; exact Bool.false_ne_true h
  | some ps =>
    rw [hc] at h hne
    rcases matchPieces_count ps _ h with h1 | ⟨_, h2⟩
    · apply hne; simp only [Option.map_some']; rw [← h1, hn]
    · exact hlast h2

theorem segment_data (s : String) (h : isSegment s = true) :
    s.data ≠ [] ∧ (∀ c ∈ s.data, mux.CharClass.notSlash.test c = true) ∧
    s.data ≠ ['.'] ∧ s.data ≠ ['.', '.'] := by
  simp only [isSegment, Bool.and_eq_true, Bool.not_eq_true', List.isEmpty_eq_false,
    List.all_eq_true, bne_iff_ne, ne_eq] at h
  obtain ⟨⟨⟨h1, h2⟩, h3⟩, h4⟩ := h
  refine ⟨h1, fun c hc => by simpa [mux.CharClass.test] using h2 c hc, ?_, ?_⟩
  · intro e; exact h3 (String.ext e)
  · intro e; exact h4 (String.ext e)

theorem digits_data (s : String) (h : isDigits s = true) :
    s.data ≠ [] ∧ (∀ c ∈ s.data, mux.CharClass.digit.test c = true) ∧
    s.data ≠ ['.'] ∧ s.data ≠ ['.', '.'] := by
  simp only [isDigits, Bool.and_eq_true, Bool.not_eq_true', List.isEmpty_eq_false,
    List.all_eq_true] at h
  have hd : ∀ c ∈ s.data, mux.CharClass.digit.test c = true :=
    fun c hc => by simpa [mux.CharClass.test] using h.2 c hc
  have hdot : ¬ mux.CharClass.digit.test '.' = true := by decide
  refine ⟨h.1, hd, ?_, ?_⟩
  · intro e; exact hdot (hd '.' (by rw [e]; simp))
  · intro e; exact hdot (hd '.' (by rw [e]; simp))

theorem count_slash_zero (cls : mux.CharClass) (l : List Char)
    (h : ∀ c ∈ l, cls.test c = true) : l.count '/' = 0 := by
  rw [List.count_eq_zero]
  intro hmem
  exact test_ne_slash cls _ (h _ hmem) rfl

theorem splitSlash_append (cls : mux.CharClass) (s rest : List Char)
    (h : ∀ c ∈ s, cls.test c = true) :
    mux.splitSlash (s ++ '/' :: rest) = s :: mux.splitSlash rest := by
  induction s with
  | nil => simp [mux.splitSlash]
  | cons c s ih =>
    have hc : c ≠ '/' := test_ne_slash cls c (h c (List.mem_cons_self _ _))
    have hrec := ih (fun d hd => h d (List.mem_cons_of_mem _ hd))
    rw [List.cons_append, mux.splitSlash, if_neg hc, hrec]

theorem cleanElements_keep (e : List Char) (es acc : List (List Char))
    (h1 : e ≠ []) (h2 : e ≠ ['.']) (h3 : e ≠ ['.', '.']) :
    mux.cleanElements (e :: es) acc = mux.cleanElements es (e :: acc) := by
  have h12 : ¬ (e = [] ∨ e = ['.']) := fun h => h.elim h1 h2
  simp only [mux.cleanElements, if_neg h12, if_neg h3]

theorem live_logs_path_data (owner repo branch build : String) :
    ("/" ++ owner ++ "/" ++ repo ++ "/" ++ branch ++ "/" ++ build ++ "/logs/live").data
      = '/' :: (owner.data ++ '/' :: (repo.data ++ '/' :: (branch.data ++ '/' ::
          (build.data ++ ['/', 'l', 'o', 'g', 's', '/', 'l', 'i', 'v', 'e'])))) := by
  simp [String.data_append]

theorem live_logs_path_clean (o r b n : List Char)
    (ho : o ≠ [] ∧ (∀ c ∈ o, mux.CharClass.notSlash.test c = true) ∧ o ≠ ['.'] ∧ o ≠ ['.', '.'])
    (hr : r ≠ [] ∧ (∀ c ∈ r, mux.CharClass.notSlash.test c = true) ∧ r ≠ ['.'] ∧ r ≠ ['.', '.'])
    (hb : b ≠ [] ∧ (∀ c ∈ b, mux.CharClass.notSlash.test c = true) ∧ b ≠ ['.'] ∧ b ≠ ['.', '.'])
    (hn : n ≠ [] ∧ (∀ c ∈ n, mux.CharClass.digit.test c = true) ∧ n ≠ ['.'] ∧ n ≠ ['.', '.']) :
    mux.pathClean ('/' :: (o ++ '/' :: (r ++ '/' :: (b ++ '/' ::
        (n ++ ['/', 'l', 'o', 'g', 's', '/', 'l', 'i', 'v', 'e'])))))
      = '/' :: (o ++ '/' :: (r ++ '/' :: (b ++ '/' ::
        (n ++ ['/', 'l', 'o', 'g', 's', '/', 'l', 'i', 'v', 'e'])))) := by
  have hsplit : mux.splitSlash ('/' :: (o ++ '/' :: (r ++ '/' :: (b ++ '/' ::
        (n ++ ['/', 'l', 'o', 'g', 's', '/', 'l', 'i', 'v', 'e'])))))
      = [] :: o :: r :: b :: n :: [['l', 'o', 'g', 's'], ['l', 'i', 'v', 'e']] := by
    have hroot : ∀ cs, mux.splitSlash ('/' :: cs) = [] :: mux.splitSlash cs := by
      intro cs; simp only [mux.splitSlash, if_pos]
    rw [hroot, splitSlash_append _ _ _ ho.2.1, splitSlash_append _ _ _ hr.2.1,
      splitSlash_append _ _ _ hb.2.1, splitSlash_append _ _ _ hn.2.1]
    rfl
  have hroot : ∀ es acc, mux.cleanElements ([] :: es) acc = mux.cleanElements es acc := by
    intro es acc; simp [mux.cleanElements]
  have hclean : mux.cleanElements ([] :: o :: r :: b :: n ::
        [['l', 'o', 'g', 's'], ['l', 'i', 'v', 'e']]) []
      = o :: r :: b :: n :: [['l', 'o', 'g', 's'], ['l', 'i', 'v', 'e']] := by
    rw [hroot, cleanElements_keep o _ _ ho.1 ho.2.2.1 ho.2.2.2,
      cleanElements_keep r _ _ hr.1 hr.2.2.1 hr.2.2.2,
      cleanElements_keep b _ _ hb.1 hb.2.2.1 hb.2.2.2,
      cleanElements_keep n _ _ hn.1 hn.2.2.1 hn.2.2.2,
      cleanElements_keep _ _ _ (by decide) (by decide) (by decide),
      cleanElements_keep _ _ _ (by decide) (by decide) (by decide)]
    simp [mux.cleanElements]
  unfold mux.pathClean
  rw [hsplit, hclean]
  simp [List.flatMap_cons]

/-- A path with a `..` element is redirected to its clean form and reaches no
handler. -/
theorem dispatch_dot_element_redirected :
    dispatch "/acme/../main/42/logs/live" = .redirect "/main/42/logs/live" := by
  decide

/-- C7: `/running` is served by `RunningHandler`, `/running/events` by
`RunningEventsHandler`, and for all segments `owner`, `repo`, `branch` and every
`build` made of decimal digits the path `/<owner>/<repo>/<branch>/<build>/logs/live`
is served by `LiveLogsHandler`: the path is in clean form and no route registered
earlier captures it. -/
theorem C7_running_and_live_logs_routes :
    dispatch "/running" = .serve .RunningHandler ∧
    dispatch "/running/events" = .serve .RunningEventsHandler ∧
    ∀ owner repo branch build : String,
      isSegment owner = true → isSegment repo = true → isSegment branch = true →
      isDigits build = true →
      dispatch ("/" ++ owner ++ "/" ++ repo ++ "/" ++ branch ++ "/" ++ build ++ "/logs/live")
        = .serve .LiveLogsHandler := by
  refine ⟨by decide, by decide, ?_⟩
  intro owner repo branch build ho hr hb hn
  have ho' := segment_data owner ho
  have hr' := segment_data repo hr
  have hb' := segment_data branch hb
  have hn' := digits_data build hn
  obtain ⟨ho1, ho2, -, -⟩ := ho'
  obtain ⟨hr1, hr2, -, -⟩ := hr'
  obtain ⟨hb1, hb2, -, -⟩ := hb'
  obtain ⟨hn1, hn2, -, -⟩ := hn'
  have hpc := live_logs_path_clean owner.data repo.data branch.data build.data
    (segment_data owner ho) (segment_data repo hr) (segment_data branch hb)
    (digits_data build hn)
  have hdata := live_logs_path_data owner repo branch build
  generalize hpath :
    "/" ++ owner ++ "/" ++ repo ++ "/" ++ branch ++ "/" ++ build ++ "/logs/live" = path at hdata
  rw [← hdata] at hpc
  have hcount : path.data.count '/' = 6 := by
    rw [hdata]
    simp [List.count_append, List.count_cons, count_slash_zero _ _ ho2,
      count_slash_zero _ _ hr2, count_slash_zero _ _ hb2, count_slash_zero _ _ hn2]
  have hlast : path.data.getLast? = some 'e' := by
    have hsplit : path.data
        = ('/' :: (owner.data ++ '/' :: (repo.data ++ '/' :: (branch.data ++ '/' :: build.data))))
          ++ ['/', 'l', 'o', 'g', 's', '/', 'l', 'i', 'v', 'e'] := by
      rw [hdata]; simp
    rw [hsplit, List.getLast?_append_of_ne_nil _ (by simp)]
    rfl
  have hlast1 : path.data.getLast? ≠ some '/' := by rw [hlast]; decide
  have hhead : path.data.head? = some '/' := by rw [hdata]; rfl
  have hne : path.data ≠ [] := by rw [hdata]; simp
  have hcleaned : mux.cleanPath path.data = path.data := by
    simp only [mux.cleanPath, if_neg hne, hhead, if_true, hpc, hlast1, false_and, if_false]
  have hmatch : mux.pathMatches "/{owner}/{repo}/{branch}/{build:[0-9]+}/logs/live" path
      = true := by
    have hc : mux.compile "/{owner}/{repo}/{branch}/{build:[0-9]+}/logs/live"
        = some [.lit ['/'], .plus .notSlash, .lit ['/'], .plus .notSlash, .lit ['/'],
            .plus .notSlash, .lit ['/'], .plus .digit,
            .lit ['/', 'l', 'o', 'g', 's', '/', 'l', 'i', 'v', 'e']] := by decide
    simp only [mux.pathMatches, hc, hdata]
    simp only [mux.matchPieces, List.isPrefixOf, beq_self_eq_true, Bool.true_and,
      List.length_singleton, List.drop_succ_cons, List.drop_zero]
    apply matchPlus_append _ _ _ _ ho1 ho2
    simp only [mux.matchPieces, List.isPrefixOf, beq_self_eq_true, Bool.true_and,
      List.length_singleton, List.drop_succ_cons, List.drop_zero]
    apply matchPlus_append _ _ _ _ hr1 hr2
    simp only [mux.matchPieces, List.isPrefixOf, beq_self_eq_true, Bool.true_and,
      List.length_singleton, List.drop_succ_cons, List.drop_zero]
    apply matchPlus_append _ _ _ _ hb1 hb2
    simp only [mux.matchPieces, List.isPrefixOf, beq_self_eq_true, Bool.true_and,
      List.length_singleton, List.drop_succ_cons, List.drop_zero]
    apply matchPlus_append _ _ _ _ hn1 hn2
    decide
  have h1 := not_pathMatches_of_count "/" path 6 hcount hlast1 (by decide)
  have h2 := not_pathMatches_of_count "/healthz" path 6 hcount hlast1 (by decide)
  have h3 := not_pathMatches_of_count "/running" path 6 hcount hlast1 (by decide)
  have h4 := not_pathMatches_of_count "/running/events" path 6 hcount hlast1 (by decide)
  have h5 := not_pathMatches_of_count "/{owner}" path 6 hcount hlast1 (by decide)
  have h6 := not_pathMatches_of_count "/{owner}/{repo}" path 6 hcount hlast1 (by decide)
  have h7 := not_pathMatches_of_count "/{owner}/{repo}/{branch}" path 6 hcount hlast1
    (by decide)
  have h8 := not_pathMatches_of_count "/{owner}/{repo}/{branch}/shields.io" path 6 hcount
    hlast1 (by decide)
  have h9 := not_pathMatches_of_count "/{owner}/{repo}/{branch}/{build:[0-9]+}" path 6 hcount
    hlast1 (by decide)
  have h10 := not_pathMatches_of_count "/{owner}/{repo}/{branch}/{build:[0-9]+}.yaml" path 6
    hcount hlast1 (by decide)
  have h11 := not_pathMatches_of_count "/{owner}/{repo}/{branch}/{build:[0-9]+}/logs" path 6
    hcount hlast1 (by decide)
  simp only [dispatch, dispatchIn, routes, hcleaned, ne_eq, not_true_eq_false, if_false,
    List.find?, h1, h2, h3, h4, h5, h6, h7, h8, h9, h10, h11, hmatch, hlast]
  rw [if_pos (propext ⟨fun h => absurd h (by decide), fun h => absurd h (by decide)⟩)]

/-- Witness of `C7_running_and_live_logs_routes` at the path
`/acme/widgets/main/42/logs/live`. -/
theorem C7_running_and_live_logs_routes_witness :
    dispatch "/acme/widgets/main/42/logs/live" = .serve .LiveLogsHandler :=
  C7_running_and_live_logs_routes.2.2 "acme" "widgets" "main" "42" (by decide) (by decide)
    (by decide) (by decide)

/-- C10, evaluated on the code: the path `/namespaces/jx/pipelineruns/42`, whose
pipeline-run name is made of digits, is captured by the earlier route
`/{owner}/{repo}/{branch}/{build:[0-9]+}` and served by `PipelineHandler`, not by
`PipelineRunHandler`; likewise the names `shields.io` and `42.yaml` are captured by
the routes registered for them, whereas the name `run-42` reaches
`PipelineRunHandler`. -/
theorem C10_pipelinerun_route_shadowed :
    dispatch "/namespaces/jx/pipelineruns/42" = .serve (.PipelineHandler false) ∧
    dispatch "/namespaces/jx/pipelineruns/42" ≠ .serve .PipelineRunHandler ∧
    dispatch "/namespaces/jx/pipelineruns/shields.io" = .serve .ShieldsIOHandler ∧
    dispatch "/namespaces/jx/pipelineruns/42.yaml" = .serve (.PipelineHandler true) ∧
    dispatch "/namespaces/jx/pipelineruns/run-42" = .serve .PipelineRunHandler := by
  decide

/-! ## Running pipeline registry -/

theorem lookup_none_of_absent {α β : Type} [DecidableEq α] (l : List (α × β)) (k : α)
    (h : ∀ e ∈ l, e.1 ≠ k) : l.lookup k = none := by
  induction l with
  | nil => rfl
  | cons e l ih =>
    obtain ⟨a, b⟩ := e
    have hne : (k == a) = false := by
      rw [beq_eq_false_iff_ne]
      exact fun hk => h (a, b) (List.mem_cons_self _ _) hk.symm
    rw [List.lookup_cons, hne]
    exact ih (fun e he => h e (List.mem_cons_of_mem _ he))

theorem lookup_append_new {α β : Type} [DecidableEq α] (l : List (α × β)) (k : α) (v : β)
    (h : ∀ e ∈ l, e.1 ≠ k) : (l ++ [(k, v)]).lookup k = some v := by
  induction l with
  | nil => simp [List.lookup_cons]
  | cons e l ih =>
    obtain ⟨a, b⟩ := e
    have hne : (k == a) = false := by
      rw [beq_eq_false_iff_ne]
      exact fun hk => h (a, b) (List.mem_cons_self _ _) hk.symm
    rw [List.cons_append, List.lookup_cons, hne]
    exact ih (fun e he => h e (List.mem_cons_of_mem _ he))

theorem lookup_replace {α β : Type} [DecidableEq α] (l : List (α × β)) (k : α) (v : β)
    (h : ∃ e ∈ l, e.1 = k) :
    (l.map (fun e => if e.1 = k then (k, v) else e)).lookup k = some v := by
  induction l with
  | nil => obtain ⟨e, he, _⟩ := h; cases he
  | cons e l ih =>
    obtain ⟨a, b⟩ := e
    by_cases hk : a = k
    · subst hk
      simp [List.lookup_cons]
    · have hne : (k == a) = false := by
        rw [beq_eq_false_iff_ne]; exact fun hc => hk hc.symm
      have hrest : ∃ e ∈ l, e.1 = k := by
        obtain ⟨e, he, hek⟩ := h
        rcases List.mem_cons.1 he with rfl | he
        · exact absurd hek hk
        · exact ⟨e, he, hek⟩
      rw [List.map_cons, if_neg (by exact hk), List.lookup_cons, hne]
      exact ih hrest

theorem lookup_replace_other {α β : Type} [DecidableEq α] (l : List (α × β)) (k k' : α)
    (v : β) (h : k' ≠ k) :
    (l.map (fun e => if e.1 = k then (k, v) else e)).lookup k' = l.lookup k' := by
  induction l with
  | nil => rfl
  | cons e l ih =>
    obtain ⟨a, b⟩ := e
    by_cases hk : a = k
    · subst hk
      have hne : (k' == a) = false := by rw [beq_eq_false_iff_ne]; exact h
      simp only [List.map_cons, if_true, List.lookup_cons, hne, ih]
    · rw [List.map_cons, if_neg (by exact hk), List.lookup_cons, List.lookup_cons, ih]

theorem lookup_append_other {α β : Type} [DecidableEq α] (l : List (α × β)) (k k' : α)
    (v : β) (h : k' ≠ k) : (l ++ [(k, v)]).lookup k' = l.lookup k' := by
  induction l with
  | nil =>
    have hne : (k' == k) = false := by rw [beq_eq_false_iff_ne]; exact h
    simp [List.lookup_cons, hne]
  | cons e l ih =>
    obtain ⟨a, b⟩ := e
    rw [List.cons_append, List.lookup_cons, List.lookup_cons, ih]

theorem lookup_filter_other {α β : Type} [DecidableEq α] (l : List (α × β)) (k k' : α)
    (h : k' ≠ k) : (l.filter (fun e => decide (e.1 ≠ k))).lookup k' = l.lookup k' := by
  induction l with
  | nil => rfl
  | cons e l ih =>
    obtain ⟨a, b⟩ := e
    by_cases hk : a = k
    · subst hk
      have hne : (k' == a) = false := by rw [beq_eq_false_iff_ne]; exact h
      simp only [List.filter_cons, ne_eq, not_true_eq_false, decide_False, Bool.false_eq_true,
        if_false, List.lookup_cons, hne, ih]
    · have hd : decide ((a, b).1 ≠ k) = true := by simpa using hk
      rw [List.filter_cons, if_pos hd, List.lookup_cons, List.lookup_cons, ih]

/-- C8: for every registry state, identity `id` and snapshot `snap`, the `Snapshot()`
taken right after `Upsert(id, snap)` maps `id` to `snap` and holds no other value for
`id`; the `Snapshot()` taken after `Remove(id)` holds no entry for `id`; and `Remove`
of an absent identity leaves the registry unchanged. Neither operation touches what
the registry holds for any other identity. -/
theorem C8_registry_upsert_remove_snapshot (r : RunningPipelines) (id : PipelineIdentity)
    (snap : RunningPipeline) :
    ((r.Upsert id snap).1.Snapshot.lookup id = some snap ∧
      (id, snap) ∈ (r.Upsert id snap).1.Snapshot ∧
      ∀ e ∈ (r.Upsert id snap).1.Snapshot, e.1 = id → e.2 = snap) ∧
    (∀ e ∈ (r.Remove id).1.Snapshot, e.1 ≠ id) ∧
    ((r.Remove id).1.Snapshot.lookup id = none) ∧
    ((∀ e ∈ r.Snapshot, e.1 ≠ id) → (r.Remove id).1 = r) ∧
    (∀ other : PipelineIdentity, other ≠ id →
      (r.Upsert id snap).1.Snapshot.lookup other = r.Snapshot.lookup other ∧
      (r.Remove id).1.Snapshot.lookup other = r.Snapshot.lookup other) := by
  obtain ⟨entries⟩ := r
  have habsent : ¬ (entries.any (fun e => decide (e.1 = id)) = true) →
      ∀ e ∈ entries, e.1 ≠ id := by
    intro hany e he hid
    exact hany (List.any_eq_true.2 ⟨e, he, by simpa using hid⟩)
  have hremove : ∀ e ∈ (RunningPipelines.Remove ⟨entries⟩ id).1.Snapshot, e.1 ≠ id := by
    simp only [RunningPipelines.Remove, RunningPipelines.Snapshot]
    split_ifs with hany
    · intro e he
      simpa using (List.mem_filter.1 he).2
    · exact habsent hany
  refine ⟨?_, hremove, lookup_none_of_absent _ _ hremove, ?_, ?_⟩
  · simp only [RunningPipelines.Upsert, RunningPipelines.Snapshot]
    split_ifs with hany
    · have hex : ∃ e ∈ entries, e.1 = id := by
        obtain ⟨e, he, hid⟩ := List.any_eq_true.1 hany
        exact ⟨e, he, by simpa using hid⟩
      refine ⟨lookup_replace entries id snap hex, ?_, ?_⟩
      · obtain ⟨e, he, hid⟩ := hex
        exact List.mem_map.2 ⟨e, he, by simp [hid]⟩
      · intro e he hid
        obtain ⟨e0, _, rfl⟩ := List.mem_map.1 he
        by_cases h0 : e0.1 = id
        · simp [h0]
        · rw [if_neg h0] at hid; exact absurd hid h0
    · refine ⟨lookup_append_new entries id snap (habsent hany), by simp, ?_⟩
      intro e he hid
      rcases List.mem_append.1 he with he | he
      · exact absurd hid (habsent hany e he)
      · rw [List.mem_singleton.1 he]
  · intro h
    have hany : ¬ (entries.any (fun e => decide (e.1 = id)) = true) := by
      intro hc
      obtain ⟨e, he, hid⟩ := List.any_eq_true.1 hc
      exact h e he (by simpa using hid)
    simp only [RunningPipelines.Remove, if_neg hany]
  · intro other hother
    constructor
    · simp only [RunningPipelines.Upsert, RunningPipelines.Snapshot]
      split_ifs with hany
      · exact lookup_replace_other entries id other snap hother
      · exact lookup_append_other entries id other snap hother
    · simp only [RunningPipelines.Remove, RunningPipelines.Snapshot]
      split_ifs with hany
      · exact lookup_filter_other entries id other hother
      · rfl

/-- Witness of `C8_registry_upsert_remove_snapshot` on the registry of two running
pipelines: replacing the snapshot of the build of `main`, adding build 43, removing the
build of `main`, and removing build 43, which is absent. -/
theorem C8_registry_upsert_remove_snapshot_witness :
    ((twoRunning.Upsert mainBuild { Pipeline := pullRequestPipeline }).1.Snapshot.lookup
        mainBuild = some { Pipeline := pullRequestPipeline } ∧
      (twoRunning.Upsert mainBuild { Pipeline := pullRequestPipeline }).1.Snapshot.lookup
        pullRequestBuild = some { Pipeline := pullRequestPipeline }) ∧
    ((twoRunning.Upsert nextMainBuild { Pipeline := githubPipeline }).1.Snapshot.lookup
        nextMainBuild = some { Pipeline := githubPipeline }) ∧
    ((twoRunning.Remove mainBuild).1.Snapshot.lookup mainBuild = none ∧
      (twoRunning.Remove mainBuild).1.Snapshot
        = [(pullRequestBuild, { Pipeline := pullRequestPipeline })]) ∧
    ((twoRunning.Remove nextMainBuild).1 = twoRunning) :=
  ⟨⟨(C8_registry_upsert_remove_snapshot twoRunning mainBuild
        { Pipeline := pullRequestPipeline }).1.1,
     ((C8_registry_upsert_remove_snapshot twoRunning mainBuild
        { Pipeline := pullRequestPipeline }).2.2.2.2 pullRequestBuild (by decide)).1.trans
        (by decide)⟩,
   (C8_registry_upsert_remove_snapshot twoRunning nextMainBuild
      { Pipeline := githubPipeline }).1.1,
   ⟨(C8_registry_upsert_remove_snapshot twoRunning mainBuild
      { Pipeline := githubPipeline }).2.2.1, by decide⟩,
   (C8_registry_upsert_remove_snapshot twoRunning nextMainBuild
      { Pipeline := githubPipeline }).2.2.2.1 (by decide)⟩

end JxVisualizer
